import Mathlib

/-!
Verification of the diskinfo-webui disk usage collector.

The embedded functions follow the Go source (the collector variant
`gatherDiskInfo(ignoreTypes []string, hostProc string)` together with
`humanReadableSize` and `contains`).  The OS partition enumeration and the
per-mount usage query are external capabilities and are passed in as
explicit inputs: enumeration as an `Except` value (the error case models a
failed `disk.PartitionsWithContext` call) and the usage query as a function
`String → Option UsageStat` (`none` models a failed `disk.Usage` call).

Machine `uint64` byte counts are modelled as `Nat` (no arithmetic in the
program can overflow them; the 2^64 bound appears as an explicit hypothesis
where a claim needs it).  `float64` percentages are modelled as exact
rationals `ℚ`.
-/

namespace Diskinfo

/-- A mounted partition as reported by the OS enumeration
(gopsutil `disk.PartitionStat`, the three fields the program reads). -/
structure Partition where
  Device : String
  Mountpoint : String
  Fstype : String
deriving DecidableEq

/-- A usage sample as returned by the usage query for one mount point
(gopsutil `disk.UsageStat`, the four fields the program reads).  The
`UsedPercent` field is supplied by the library, not computed by this
program. -/
structure UsageStat where
  Total : Nat
  Used : Nat
  Free : Nat
  UsedPercent : ℚ
deriving DecidableEq

/-- One output record (Go struct `DiskInfo`).  The Go field `Type` is
renamed `FsType` because `Type` is a Lean keyword.  The human-readable
strings are `Option String`: `none` models the out-of-range indexing
runtime panic of `"KMGTPE"[exp]`, shown unreachable for `uint64` inputs. -/
structure DiskInfo where
  Device : String
  Size : Nat
  Used : Nat
  Free : Nat
  FsType : String
  HumanSize : Option String
  HumanUsed : Option String
  HumanFree : Option String
  UsedPercent : ℚ
  FreePercent : ℚ
deriving DecidableEq

/-- Go helper `contains(slice []string, item string) bool`: linear scan
with exact (case-sensitive) string equality. -/
def contains : List String → String → Bool
  | [], _ => false
  | s :: rest, item => if s = item then true else contains rest item

/-- Shallow model of Go `filepath.Join(dir, mp)`.  Path cleaning is not
modelled: no claim depends on the concrete joined string, only on the fact
that the usage query is keyed by it. -/
def joinPath (dir mp : String) : String :=
  if dir = "" then mp else if mp = "" then dir else dir ++ "/" ++ mp

/-- Indexing the Go unit string `"KMGTPE"[exp]`; `none` is the
out-of-range case (a runtime panic in Go). -/
def hrUnit (exp : Nat) : Option Char :=
  "KMGTPE".toList.get? exp

/-- The loop of `humanReadableSize`:
`for n := size / unit; n >= unit; n /= unit { div *= unit; exp++ }`,
returning the final `(div, exp)`. -/
def hrLoop (n div exp : Nat) : Nat × Nat :=
  if h : 1024 ≤ n then hrLoop (n / 1024) (div * 1024) (exp + 1) else (div, exp)
termination_by n
decreasing_by exact Nat.div_lt_self (by omega) (by omega)

/-- Go `fmt.Sprintf("%.1f", ...)` applied to the exact quotient
`num / den`, i.e. the quotient rendered with exactly one decimal digit,
rounding to nearest with ties to even.  (Go rounds the `float64` quotient;
the exact-rational model agrees with it at every value the claims
exercise.) -/
def fmtFixed1 (num den : Nat) : String :=
  let t := num * 10
  let q := t / den
  let r := t % den
  let rounded :=
    if den < 2 * r then q + 1
    else if 2 * r < den then q
    else if q % 2 = 0 then q else q + 1
  toString (rounded / 10) ++ "." ++ toString (rounded % 10)

/-- Go `humanReadableSize(size uint64) string`.  Sizes below 1024 render
as `"<size> B"`; otherwise the loop computes `(div, exp)` and the result
is `"%.1f %cB"` with the unit letter `"KMGTPE"[exp]`. -/
def humanReadableSize (size : Nat) : Option String :=
  if size < 1024 then some (toString size ++ " B")
  else
    (hrUnit (hrLoop (size / 1024) 1024 0).2).map
      (fun c => fmtFixed1 size (hrLoop (size / 1024) 1024 0).1 ++ " " ++ String.mk [c] ++ "B")

/-- The `DiskInfo` literal built in the loop body of `gatherDiskInfo` for a
partition `p` whose usage sample is `u`. -/
def mkDiskInfo (p : Partition) (u : UsageStat) : DiskInfo :=
  { Device := p.Device
    Size := u.Total
    Used := u.Used
    Free := u.Free
    FsType := p.Fstype
    HumanSize := humanReadableSize u.Total
    HumanUsed := humanReadableSize u.Used
    HumanFree := humanReadableSize u.Free
    UsedPercent := u.UsedPercent
    FreePercent := 100 - u.UsedPercent }

/-- One iteration of the `gatherDiskInfo` loop body: the four `continue`
filters in source order (empty mount point, failed usage query, zero total,
ignored filesystem type), then the record construction.  `none` means the
iteration appends nothing. -/
def processOne (ignoreTypes : List String) (hostProc : String)
    (usage : String → Option UsageStat) (p : Partition) : Option DiskInfo :=
  if p.Mountpoint = "" then none
  else
    match usage (joinPath hostProc p.Mountpoint) with
    | none => none
    | some u =>
      if u.Total = 0 then none
      else if contains ignoreTypes p.Fstype then none
      else some (mkDiskInfo p u)

/-- The `for _, p := range partitions` loop of `gatherDiskInfo`,
appending at most one record per partition, in order. -/
def gatherLoop (ignoreTypes : List String) (hostProc : String)
    (usage : String → Option UsageStat) : List Partition → List DiskInfo
  | [] => []
  | p :: rest =>
    match processOne ignoreTypes hostProc usage p with
    | none => gatherLoop ignoreTypes hostProc usage rest
    | some di => di :: gatherLoop ignoreTypes hostProc usage rest

/-- Go `gatherDiskInfo(ignoreTypes, hostProc)`: on enumeration failure it
logs and returns `nil` (the empty list); otherwise it runs the loop over
the enumerated partitions. -/
def gatherDiskInfo (ignoreTypes : List String) (hostProc : String)
    (enumd : Except String (List Partition))
    (usage : String → Option UsageStat) : List DiskInfo :=
  match enumd with
  | Except.error _ => []
  | Except.ok parts => gatherLoop ignoreTypes hostProc usage parts

theorem contains_iff_mem (l : List String) (s : String) :
    contains l s = true ↔ s ∈ l := by
  induction l with
  | nil => simp [contains]
  | cons a rest ih =>
    by_cases h : a = s
    · subst h
      simp [contains]
    · simp only [contains, if_neg h, ih, List.mem_cons]
      constructor
      · exact fun hs => Or.inr hs
      · rintro (rfl | hs)
        · exact absurd rfl h
        · exact hs

theorem gatherLoop_eq_filterMap (ign : List String) (hp : String)
    (usage : String → Option UsageStat) (parts : List Partition) :
    gatherLoop ign hp usage parts = parts.filterMap (processOne ign hp usage) := by
  induction parts with
  | nil => rfl
  | cons p rest ih =>
    simp only [gatherLoop, List.filterMap_cons]
    cases processOne ign hp usage p <;> simp [ih]

theorem processOne_eq_some {ign : List String} {hp : String}
    {usage : String → Option UsageStat} {p : Partition} {di : DiskInfo}
    (h : processOne ign hp usage p = some di) :
    p.Mountpoint ≠ "" ∧
      ∃ u, usage (joinPath hp p.Mountpoint) = some u ∧ u.Total ≠ 0 ∧
        contains ign p.Fstype = false ∧ di = mkDiskInfo p u := by
  by_cases hm : p.Mountpoint = ""
  · simp [processOne, hm] at h
  · refine ⟨hm, ?_⟩
    cases hu : usage (joinPath hp p.Mountpoint) with
    | none => simp [processOne, hm, hu] at h
    | some u =>
      by_cases ht : u.Total = 0
      · simp [processOne, hm, hu, ht] at h
      · cases hc : contains ign p.Fstype with
        | true => simp [processOne, hm, hu, ht, hc] at h
        | false =>
          simp only [processOne, if_neg hm, hu, if_neg ht, hc, Bool.false_eq_true,
            if_false, Option.some.injEq] at h
          exact ⟨u, rfl, ht, rfl, h.symm⟩

theorem processOne_eq_some_of {ign : List String} {hp : String}
    {usage : String → Option UsageStat} {p : Partition} {u : UsageStat}
    (hm : p.Mountpoint ≠ "") (hu : usage (joinPath hp p.Mountpoint) = some u)
    (ht : u.Total ≠ 0) (hc : contains ign p.Fstype = false) :
    processOne ign hp usage p = some (mkDiskInfo p u) := by
  simp [processOne, hm, hu, ht, hc]

theorem hrLoop_spec (n : Nat) : ∀ div exp size : Nat,
    div = 1024 ^ (exp + 1) → n = size / div → div ≤ size →
    (hrLoop n div exp).1 = 1024 ^ ((hrLoop n div exp).2 + 1) ∧
      1024 ^ ((hrLoop n div exp).2 + 1) ≤ size ∧
      size < 1024 ^ ((hrLoop n div exp).2 + 2) ∧
      exp ≤ (hrLoop n div exp).2 := by
  induction n using Nat.strong_induction_on with
  | _ n ih =>
    intro div exp size hdiv hn hle
    have hdivpos : 0 < div := hdiv ▸ Nat.pos_pow_of_pos (exp + 1) (by omega)
    rw [hrLoop]
    by_cases h : 1024 ≤ n
    · rw [dif_pos h]
      have hlt : n / 1024 < n := Nat.div_lt_self (by omega) (by omega)
      have hdiv2 : div * 1024 = 1024 ^ (exp + 1 + 1) := by
        rw [hdiv]
        ring
      have hn2 : n / 1024 = size / (div * 1024) := by
        rw [hn, Nat.div_div_eq_div_mul]
      have hle2 : div * 1024 ≤ size := by
        have := (Nat.le_div_iff_mul_le hdivpos).mp (hn ▸ h)
        omega
      have := ih (n / 1024) hlt (div * 1024) (exp + 1) size hdiv2 hn2 hle2
      exact ⟨this.1, this.2.1, this.2.2.1, by omega⟩
    · rw [dif_neg h]
      refine ⟨hdiv, hdiv ▸ hle, ?_, Nat.le_refl exp⟩
      have hsz : size / div < 1024 := by omega
      have := (Nat.div_lt_iff_lt_mul hdivpos).mp hsz
      calc size < 1024 * div := this
        _ = 1024 ^ (exp + 2) := by rw [hdiv, pow_succ]; ring

theorem hrLoop_exp_le_five {size : Nat} (hbig : 1024 ≤ size) (hlt : size < 2 ^ 64) :
    (hrLoop (size / 1024) 1024 0).2 ≤ 5 := by
  have hspec := hrLoop_spec (size / 1024) 1024 0 size (by norm_num) rfl hbig
  set e := (hrLoop (size / 1024) 1024 0).2 with he
  have h1 : (1024 : Nat) ^ (e + 1) < 2 ^ 64 := lt_of_le_of_lt hspec.2.1 hlt
  have h2 : (1024 : Nat) ^ (e + 1) = 2 ^ (10 * (e + 1)) := by
    rw [show (1024 : Nat) = 2 ^ 10 by norm_num, ← pow_mul]
  rw [h2] at h1
  have h3 : 10 * (e + 1) < 64 := (Nat.pow_lt_pow_iff_right (by omega)).mp h1
  omega

theorem hrUnit_of_le_five {e : Nat} (h : e ≤ 5) : ∃ c, hrUnit e = some c := by
  interval_cases e <;> exact ⟨_, rfl⟩

theorem gatherLoop_device_sublist (ign : List String) (hp : String)
    (usage : String → Option UsageStat) (parts : List Partition) :
    List.Sublist ((gatherLoop ign hp usage parts).map (fun r => r.Device))
      (parts.map (fun p => p.Device)) := by
  induction parts with
  | nil => simp [gatherLoop]
  | cons p rest ih =>
    simp only [gatherLoop, List.map_cons]
    cases hpo : processOne ign hp usage p with
    | none => exact List.Sublist.cons p.Device ih
    | some di =>
      have hdev : di.Device = p.Device := by
        obtain ⟨-, u, -, -, -, hdi⟩ := processOne_eq_some hpo
        rw [hdi]
        rfl
      simp only [List.map_cons, hdev]
      exact List.Sublist.cons₂ p.Device ih

/-- C1 counterexample: the claim says the emitted usedPercent is
`(used / total) * 100`.  On a sample with total 10, used 2 whose reported
`UsedPercent` is 25 (as gopsutil reports when `used + free ≠ total`, here
free = 6, reserved blocks), the emitted record carries 25, not
`(2 / 10) * 100 = 20`. -/
theorem record_percent_ne_used_div_total :
    (gatherDiskInfo [] "" (Except.ok [⟨"/dev/sda1", "/data", "ext4"⟩])
        (fun _ => some ⟨10, 2, 6, 25⟩)).map (fun r => (r.Used, r.Size, r.UsedPercent))
      = [(2, 10, 25)]
    ∧ (25 : ℚ) ≠ ((2 : ℚ) / (10 : ℚ)) * 100 :=
  ⟨by decide, by norm_num⟩

/-- C1 (amended): for every partition that survives filtering, the emitted
record's usedPercent equals the usage sample's reported `UsedPercent`
value (the code copies `usage.UsedPercent`, it does not recompute the
percentage from used and total), and freePercent equals 100 minus that
reported value. -/
theorem record_percent_eq_sample_percent :
    ∀ (ign : List String) (hp : String) (usage : String → Option UsageStat)
      (p : Partition) (di : DiskInfo),
      processOne ign hp usage p = some di →
      ∃ u, usage (joinPath hp p.Mountpoint) = some u ∧
        di.UsedPercent = u.UsedPercent ∧ di.FreePercent = 100 - u.UsedPercent := by
  intro ign hp usage p di h
  obtain ⟨-, u, hu, -, -, hdi⟩ := processOne_eq_some h
  subst hdi
  exact ⟨u, hu, rfl, rfl⟩

/-- Witness for C1's amended theorem at a concrete input. -/
theorem record_percent_eq_sample_percent_witness :
    ∃ u, (fun _ => some (⟨10, 2, 6, 25⟩ : UsageStat)) (joinPath "" "/data") = some u ∧
      (mkDiskInfo ⟨"/dev/sda1", "/data", "ext4"⟩ ⟨10, 2, 6, 25⟩).UsedPercent = u.UsedPercent ∧
      (mkDiskInfo ⟨"/dev/sda1", "/data", "ext4"⟩ ⟨10, 2, 6, 25⟩).FreePercent = 100 - u.UsedPercent :=
  record_percent_eq_sample_percent [] "" (fun _ => some ⟨10, 2, 6, 25⟩)
    ⟨"/dev/sda1", "/data", "ext4"⟩ (mkDiskInfo ⟨"/dev/sda1", "/data", "ext4"⟩ ⟨10, 2, 6, 25⟩) rfl

/-- C2 counterexample: a two-partition list with one failing usage query
and one succeeding usage query for which collect returns no record at all,
because the succeeding mount reports total size 0.  The claim's "exactly
one record" does not hold for every such list. -/
theorem failing_plus_zero_total_yields_no_record :
    gatherDiskInfo [] "" (Except.ok [⟨"/dev/bad", "/bad", "ext4"⟩, ⟨"/dev/ok", "/ok", "ext4"⟩])
        (fun s => if s = "/ok" then some ⟨0, 0, 0, 0⟩ else none) = []
    ∧ (fun s => if s = "/ok" then some (⟨0, 0, 0, 0⟩ : UsageStat) else none) (joinPath "" "/bad") = none
    ∧ (fun s => if s = "/ok" then some (⟨0, 0, 0, 0⟩ : UsageStat) else none) (joinPath "" "/ok") = some ⟨0, 0, 0, 0⟩ :=
  ⟨by decide, by decide, by decide⟩

/-- C2 (amended): over a partition list with one mount whose usage query
fails and one whose usage query succeeds, collect returns exactly the one
record for the succeeding mount — provided that mount also passes the
remaining filters (non-empty mount point, nonzero reported total,
filesystem type not ignored).  The failing mount is merely omitted, and
collect is a total function (no exception is modelled or needed). -/
theorem one_failing_one_valid_yields_single_record :
    ∀ (ign : List String) (hp : String) (usage : String → Option UsageStat)
      (p1 p2 : Partition) (u : UsageStat),
      usage (joinPath hp p1.Mountpoint) = none →
      p2.Mountpoint ≠ "" →
      usage (joinPath hp p2.Mountpoint) = some u →
      u.Total ≠ 0 →
      contains ign p2.Fstype = false →
      gatherDiskInfo ign hp (Except.ok [p1, p2]) usage = [mkDiskInfo p2 u] := by
  intro ign hp usage p1 p2 u h1 hm hu ht hc
  have hp1 : processOne ign hp usage p1 = none := by
    unfold processOne
    split
    · rfl
    · rw [h1]
  have hp2 := processOne_eq_some_of hm hu ht hc
  simp [gatherDiskInfo, gatherLoop, hp1, hp2]

/-- Witness for C2's amended theorem at a concrete input. -/
theorem one_failing_one_valid_yields_single_record_witness :
    gatherDiskInfo [] "" (Except.ok [⟨"/dev/bad", "/bad", "ext4"⟩, ⟨"/dev/ok", "/ok", "ext4"⟩])
        (fun s => if s = "/ok" then some ⟨100, 40, 60, 40⟩ else none)
      = [mkDiskInfo ⟨"/dev/ok", "/ok", "ext4"⟩ ⟨100, 40, 60, 40⟩] :=
  one_failing_one_valid_yields_single_record [] ""
    (fun s => if s = "/ok" then some ⟨100, 40, 60, 40⟩ else none)
    ⟨"/dev/bad", "/bad", "ext4"⟩ ⟨"/dev/ok", "/ok", "ext4"⟩ ⟨100, 40, 60, 40⟩
    (by decide) (by decide) (by decide) (by decide) (by decide)

/-- C3: a partition whose filesystem type is in ignoreTypes is skipped
regardless of its usage values, so no output record carries an ignored
type; membership is exact, case-sensitive string equality against the
filesystem type.  The concrete clauses show that a device NAME equal to an
ignored string, a SUPERSTRING of an ignored type, and a different-case
variant of an ignored type are all still listed. -/
theorem ignored_fstype_never_listed :
    (∀ (ign : List String) (hp : String) (usage : String → Option UsageStat) (p : Partition),
      contains ign p.Fstype = true → processOne ign hp usage p = none)
    ∧ (∀ (l : List String) (s : String), contains l s = true ↔ s ∈ l)
    ∧ (∀ (ign : List String) (hp : String) (enumd : Except String (List Partition))
        (usage : String → Option UsageStat) (r : DiskInfo),
        r ∈ gatherDiskInfo ign hp enumd usage → r.FsType ∉ ign)
    ∧ (gatherDiskInfo ["cdrom"] "" (Except.ok [⟨"cdrom", "/mnt/cdrom", "iso9660"⟩])
        (fun _ => some ⟨100, 10, 90, 10⟩)).length = 1
    ∧ (gatherDiskInfo ["tmpfs"] "" (Except.ok [⟨"/dev/x", "/x", "tmpfs2"⟩])
        (fun _ => some ⟨100, 10, 90, 10⟩)).length = 1
    ∧ (gatherDiskInfo ["tmpfs"] "" (Except.ok [⟨"/dev/y", "/y", "TMPFS"⟩])
        (fun _ => some ⟨100, 10, 90, 10⟩)).length = 1 := by
  refine ⟨?_, contains_iff_mem, ?_, by decide, by decide, by decide⟩
  · intro ign hp usage p hc
    unfold processOne
    split
    · rfl
    · cases usage (joinPath hp p.Mountpoint) with
      | none => rfl
      | some u => simp [hc]
  · intro ign hp enumd usage r hr hmem
    cases enumd with
    | error e => simp [gatherDiskInfo] at hr
    | ok parts =>
      simp only [gatherDiskInfo] at hr
      rw [gatherLoop_eq_filterMap] at hr
      obtain ⟨p, -, hpo⟩ := List.mem_filterMap.mp hr
      obtain ⟨-, u, -, -, hcf, hdi⟩ := processOne_eq_some hpo
      have hft : r.FsType = p.Fstype := by rw [hdi]; rfl
      rw [hft] at hmem
      exact absurd ((contains_iff_mem ign p.Fstype).mpr hmem) (by simp [hcf])

/-- Witness for C3's theorem at a concrete input. -/
theorem ignored_fstype_never_listed_witness :
    processOne ["tmpfs"] "" (fun _ => some ⟨100, 10, 90, 10⟩) ⟨"/dev/z", "/z", "tmpfs"⟩ = none :=
  ignored_fstype_never_listed.1 ["tmpfs"] "" (fun _ => some ⟨100, 10, 90, 10⟩)
    ⟨"/dev/z", "/z", "tmpfs"⟩ (by decide)

/-- C4 counterexample: the claim's hypotheses (total greater than 0 and
used at most total) do not force the percentages into the range [0,100],
because the code copies the sample's reported `UsedPercent` rather than
deriving it from used and total: a sample with total 100, used 50 but
reported percent 150 yields freePercent equal to minus 50. -/
theorem percent_range_not_forced_by_total_used :
    (gatherDiskInfo [] "" (Except.ok [⟨"/dev/sda1", "/data", "ext4"⟩])
        (fun _ => some ⟨100, 50, 50, 150⟩)).map
      (fun r => (r.Size, r.Used, r.UsedPercent, r.FreePercent)) = [(100, 50, 150, 100 - 150)]
    ∧ (0 : Nat) < 100 ∧ (50 : Nat) ≤ 100
    ∧ ((100 : ℚ) - 150 = -50) ∧ ¬((0 : ℚ) ≤ -50) :=
  ⟨by rfl, by norm_num, by norm_num, by norm_num, by norm_num⟩

/-- C4 (amended): for every emitted record, usedPercent plus freePercent
equals 100 exactly (in the exact-rational model of float64 arithmetic,
since freePercent is constructed as 100 minus usedPercent); both
percentages lie in [0,100] provided the usage sample's reported
`UsedPercent` lies in [0,100]. -/
theorem percent_sum_and_conditional_range :
    ∀ (ign : List String) (hp : String) (usage : String → Option UsageStat)
      (p : Partition) (u : UsageStat) (di : DiskInfo),
      usage (joinPath hp p.Mountpoint) = some u →
      processOne ign hp usage p = some di →
      di.UsedPercent + di.FreePercent = 100 ∧
        (0 ≤ u.UsedPercent → u.UsedPercent ≤ 100 →
          0 ≤ di.UsedPercent ∧ di.UsedPercent ≤ 100 ∧
            0 ≤ di.FreePercent ∧ di.FreePercent ≤ 100) := by
  intro ign hp usage p u di hu h
  obtain ⟨-, u2, hu2, -, -, hdi⟩ := processOne_eq_some h
  rw [hu] at hu2
  obtain rfl : u = u2 := by injection hu2
  subst hdi
  constructor
  · show u.UsedPercent + (100 - u.UsedPercent) = 100
    ring
  · intro h0 h100
    refine ⟨h0, h100, ?_, ?_⟩
    · show (0 : ℚ) ≤ 100 - u.UsedPercent
      linarith
    · show (100 : ℚ) - u.UsedPercent ≤ 100
      linarith

/-- Witness for C4's amended theorem at a concrete input. -/
theorem percent_sum_and_conditional_range_witness :
    (mkDiskInfo ⟨"/dev/sda1", "/data", "ext4"⟩ ⟨100, 40, 60, 40⟩).UsedPercent +
        (mkDiskInfo ⟨"/dev/sda1", "/data", "ext4"⟩ ⟨100, 40, 60, 40⟩).FreePercent = 100 ∧
      (0 ≤ (⟨100, 40, 60, 40⟩ : UsageStat).UsedPercent →
        (⟨100, 40, 60, 40⟩ : UsageStat).UsedPercent ≤ 100 →
        0 ≤ (mkDiskInfo ⟨"/dev/sda1", "/data", "ext4"⟩ ⟨100, 40, 60, 40⟩).UsedPercent ∧
          (mkDiskInfo ⟨"/dev/sda1", "/data", "ext4"⟩ ⟨100, 40, 60, 40⟩).UsedPercent ≤ 100 ∧
          0 ≤ (mkDiskInfo ⟨"/dev/sda1", "/data", "ext4"⟩ ⟨100, 40, 60, 40⟩).FreePercent ∧
          (mkDiskInfo ⟨"/dev/sda1", "/data", "ext4"⟩ ⟨100, 40, 60, 40⟩).FreePercent ≤ 100) :=
  percent_sum_and_conditional_range [] "" (fun _ => some ⟨100, 40, 60, 40⟩)
    ⟨"/dev/sda1", "/data", "ext4"⟩ ⟨100, 40, 60, 40⟩
    (mkDiskInfo ⟨"/dev/sda1", "/data", "ext4"⟩ ⟨100, 40, 60, 40⟩) rfl rfl

/-- C5: the human-readable formatter renders byte counts below 1024 as the
decimal integer followed by " B"; any other uint64 byte count is rendered
as the value divided by 1024^(e+1) to exactly one decimal digit, a space,
and the unit letter "KMGTPE"[e] followed by "B" (so the claim's exponent is
e+1 and the letter index is exponent minus one); in particular 1536 gives
"1.5 KB" and 1073741824 gives "1.0 GB". -/
theorem humanReadableSize_format :
    (∀ b : Nat, b < 1024 → humanReadableSize b = some (toString b ++ " B"))
    ∧ (∀ b : Nat, 1024 ≤ b → b < 2 ^ 64 → ∃ e c, e ≤ 5 ∧ hrUnit e = some c ∧
        1024 ^ (e + 1) ≤ b ∧ b < 1024 ^ (e + 2) ∧
        humanReadableSize b = some (fmtFixed1 b (1024 ^ (e + 1)) ++ " " ++ String.mk [c] ++ "B"))
    ∧ humanReadableSize 1536 = some "1.5 KB"
    ∧ humanReadableSize 1073741824 = some "1.0 GB" := by
  refine ⟨?_, ?_, ?_, ?_⟩
  · intro b hb
    simp [humanReadableSize, hb]
  · intro b hb hlt
    have hspec := hrLoop_spec (b / 1024) 1024 0 b (by norm_num) rfl hb
    have he5 : (hrLoop (b / 1024) 1024 0).2 ≤ 5 := hrLoop_exp_le_five hb hlt
    obtain ⟨c, hc⟩ := hrUnit_of_le_five he5
    refine ⟨(hrLoop (b / 1024) 1024 0).2, c, he5, hc, hspec.2.1, hspec.2.2.1, ?_⟩
    unfold humanReadableSize
    rw [if_neg (by omega), hc, hspec.1]
    rfl
  · have h1 : hrLoop (1536 / 1024) 1024 0 = (1024, 0) := by
      norm_num
      rw [hrLoop]
      norm_num
    simp only [humanReadableSize, h1]
    norm_num [hrUnit, fmtFixed1]
    decide
  · have h1 : hrLoop (1073741824 / 1024) 1024 0 = (1073741824, 2) := by
      norm_num
      rw [hrLoop]; norm_num
      rw [hrLoop]; norm_num
      rw [hrLoop]; norm_num
    simp only [humanReadableSize, h1]
    norm_num [hrUnit, fmtFixed1]
    decide

/-- Witness for C5's theorem at a concrete input. -/
theorem humanReadableSize_format_witness :
    humanReadableSize 512 = some (toString 512 ++ " B") :=
  humanReadableSize_format.1 512 (by norm_num)

/-- C6: a partition whose usage sample reports total size 0 produces no
record (the loop body returns before any percentage or formatting work),
and every emitted record has nonzero size. -/
theorem zero_total_skipped :
    (∀ (ign : List String) (hp : String) (usage : String → Option UsageStat)
      (p : Partition) (u : UsageStat),
      usage (joinPath hp p.Mountpoint) = some u → u.Total = 0 →
      processOne ign hp usage p = none)
    ∧ (∀ (ign : List String) (hp : String) (enumd : Except String (List Partition))
        (usage : String → Option UsageStat) (r : DiskInfo),
        r ∈ gatherDiskInfo ign hp enumd usage → r.Size ≠ 0) := by
  constructor
  · intro ign hp usage p u hu ht
    unfold processOne
    split
    · rfl
    · rw [hu]
      simp [ht]
  · intro ign hp enumd usage r hr
    cases enumd with
    | error e => simp [gatherDiskInfo] at hr
    | ok parts =>
      simp only [gatherDiskInfo] at hr
      rw [gatherLoop_eq_filterMap] at hr
      obtain ⟨p, -, hpo⟩ := List.mem_filterMap.mp hr
      obtain ⟨-, u, -, ht, -, hdi⟩ := processOne_eq_some hpo
      rw [hdi]
      exact ht

/-- Witness for C6's theorem at a concrete input. -/
theorem zero_total_skipped_witness :
    processOne [] "" (fun _ => some ⟨0, 0, 0, 0⟩) ⟨"/dev/z", "/z", "ext4"⟩ = none :=
  zero_total_skipped.1 [] "" (fun _ => some ⟨0, 0, 0, 0⟩) ⟨"/dev/z", "/z", "ext4"⟩
    ⟨0, 0, 0, 0⟩ rfl rfl

/-- C7: a partition with an empty mount point is skipped before the usage
query: the loop body yields no record, and its outcome does not depend on
the usage oracle at all (the query is never made). -/
theorem empty_mountpoint_skipped :
    ∀ (ign : List String) (hp : String) (usage usage2 : String → Option UsageStat)
      (p : Partition), p.Mountpoint = "" →
      processOne ign hp usage p = none ∧
        processOne ign hp usage p = processOne ign hp usage2 p := by
  intro ign hp usage usage2 p hm
  constructor <;> simp [processOne, hm]

/-- Witness for C7's theorem at a concrete input. -/
theorem empty_mountpoint_skipped_witness :
    processOne [] "/proc" (fun _ => some ⟨100, 1, 99, 1⟩) ⟨"/dev/e", "", "ext4"⟩ = none ∧
      processOne [] "/proc" (fun _ => some ⟨100, 1, 99, 1⟩) ⟨"/dev/e", "", "ext4"⟩ =
        processOne [] "/proc" (fun _ => none) ⟨"/dev/e", "", "ext4"⟩ :=
  empty_mountpoint_skipped [] "/proc" (fun _ => some ⟨100, 1, 99, 1⟩) (fun _ => none)
    ⟨"/dev/e", "", "ext4"⟩ rfl

/-- C8: if the OS partition enumeration itself fails, the collector
returns the empty list — a valid, non-error result, with no error
propagated to the caller. -/
theorem enumeration_failure_yields_empty :
    ∀ (ign : List String) (hp err : String) (usage : String → Option UsageStat),
      gatherDiskInfo ign hp (Except.error err) usage = [] := by
  intro ign hp err usage
  rfl

/-- C9: with the empty ignore set, collect is exactly the order-preserving
filterMap of the loop body over the OS enumeration; the loop body emits a
record precisely for valid partitions (non-empty mount point, successful
usage query, nonzero total); and the emitted devices form an
order-preserving subsequence of the enumerated devices (no sorting). -/
theorem empty_ignore_collects_valid_in_order :
    ∀ (hp : String) (usage : String → Option UsageStat) (parts : List Partition),
      gatherDiskInfo [] hp (Except.ok parts) usage = parts.filterMap (processOne [] hp usage)
      ∧ (∀ p : Partition, (processOne [] hp usage p).isSome = true ↔
          (p.Mountpoint ≠ "" ∧ ∃ u, usage (joinPath hp p.Mountpoint) = some u ∧ u.Total ≠ 0))
      ∧ List.Sublist ((gatherDiskInfo [] hp (Except.ok parts) usage).map (fun r => r.Device))
          (parts.map (fun p => p.Device)) := by
  intro hp usage parts
  refine ⟨gatherLoop_eq_filterMap [] hp usage parts, ?_, gatherLoop_device_sublist [] hp usage parts⟩
  intro p
  constructor
  · intro h
    obtain ⟨di, hdi⟩ := Option.isSome_iff_exists.mp h
    obtain ⟨hm, u, hu, ht, -, -⟩ := processOne_eq_some hdi
    exact ⟨hm, u, hu, ht⟩
  · rintro ⟨hm, u, hu, ht⟩
    rw [processOne_eq_some_of hm hu ht (show contains [] p.Fstype = false from rfl)]
    rfl

/-- C10: the size formatter is total, and for every uint64 input the unit
exponent computed by the loop is at most 5, so indexing "KMGTPE" never
goes out of range (the `Option`-valued embedding returns `some`, i.e. the
panic case is unreachable). -/
theorem humanReadableSize_total_and_in_bounds :
    ∀ size : Nat, size < 2 ^ 64 →
      (hrLoop (size / 1024) 1024 0).2 ≤ 5 ∧ (humanReadableSize size).isSome = true := by
  intro size hlt
  by_cases hs : size < 1024
  · constructor
    · have h0 : size / 1024 = 0 := Nat.div_eq_of_lt hs
      rw [h0, hrLoop]
      norm_num
    · simp [humanReadableSize, hs]
  · have hb : 1024 ≤ size := by omega
    have he := hrLoop_exp_le_five hb hlt
    obtain ⟨c, hc⟩ := hrUnit_of_le_five he
    refine ⟨he, ?_⟩
    unfold humanReadableSize
    rw [if_neg hs, hc]
    rfl

/-- Witness for C10's theorem at a concrete input (the largest uint64). -/
theorem humanReadableSize_total_and_in_bounds_witness :
    ((2 ^ 64 - 1 : Nat) < 2 ^ 64) ∧ (humanReadableSize (2 ^ 64 - 1)).isSome = true :=
  ⟨by norm_num, (humanReadableSize_total_and_in_bounds (2 ^ 64 - 1) (by norm_num)).2⟩

end Diskinfo
